import Mathlib

/-!
Verification development for the rterm serial-console application.

This file gives a shallow embedding of the parts of the program that the
checked properties are about:

* `src/wraptext.rs` — the wrap/scroll engine: `Position`, `Movement`,
  `Position::do_movement` and `Position::follow_get_start_pos`.
* `src/app.rs` — the byte parser `App::parse_byte` and the grapher's
  window-sliding logic.
* `src/main.rs` — the fixed value-extraction pattern handed to the grapher.

Modelling conventions:
* Rust `i32` values (line indices, offsets) become `Int`; `usize`/`u16`
  quantities that never wrap in the modelled code paths become `Nat`.
  The one place where 16-bit wrap-around is observable —
  `tot_height: u16` accumulating wrapped heights in
  `follow_get_start_pos` — is modelled explicitly with `% 65536`
  (a cast `height as u16` followed by a wrapping `+=`).
* Slice indexing `lines[i as usize]` becomes `List.getD (Int.toNat i)`
  with default `""`; theorems establish the indices stay in bounds, so the
  default is never consulted on the modelled executions.
* `f64` values held by the grapher (window bounds, parsed samples) are
  modelled as exact rationals `ℚ`; all arithmetic the code performs on
  them (adding 1.0, dividing an integer by 10.0, comparing) is exact for
  the magnitudes involved, except for the rounding of the parsed decimal
  literal itself, which the model keeps exact.
* Fallible file writes return `Except Unit`; the output file plus its
  error state is part of the model state, with a `writeOk` flag standing
  for whether the underlying `write_all`/`flush` calls succeed.
-/

set_option maxRecDepth 4000

set_option allowUnsafeReducibility true

attribute [local semireducible] Rat.mul Rat.inv Rat.add Rat.sub Rat.div
  Rat.neg Rat.normalize Rat.ofScientific

namespace RTerm
/-- Wrapped display height of a line of length `len` at gutter width `lnw`
and viewport width `w`. Mirrors the expression
`(line.len() + line_number_width - 1) / text_area.width + 1`
appearing in `Position::do_movement` and (with `i32` arithmetic on the
same nonnegative operands) in `Position::follow_get_start_pos`. -/
def wrappedHeight (lnw w len : Nat) : Nat :=
  (len + lnw - 1) / w + 1

/-- Height of the `i`-th line of the buffer (default `""` out of range). -/
def hht (lnw w : Nat) (lines : List String) (i : Nat) : Nat :=
  wrappedHeight lnw w (lines.getD i "").length

/-- Sum of the wrapped heights of all lines of the buffer. -/
def totHeights (lnw w : Nat) (lines : List String) : Nat :=
  (lines.map (fun l => wrappedHeight lnw w l.length)).sum

/-- Scroll position: `At line offset` (offset measured in wrapped rows
from the top of that line) or `Follow` (tail mode). `i32` fields become
`Int`. Mirrors `enum Position` in `src/wraptext.rs`. -/
inductive Position where
  | At : Int → Int → Position
  | Follow : Position
deriving DecidableEq, Repr

/-- Queued scroll commands. Mirrors `enum Movement` in `src/wraptext.rs`. -/
inductive Movement where
  | ScrollUp : Movement
  | ScrollDown : Movement
  | Follow : Movement
deriving DecidableEq, Repr

/-- The backward-walk loop body of `Position::follow_get_start_pos`.
`revLines` is the not-yet-visited part of `lines.iter().rev()`;
`lineIdx` and `tot` are the `line_idx` and `tot_height` accumulators.
`tot_height` is a `u16` updated by `tot_height += height as u16`, hence
the explicit `% 65536` wrap on both the cast and the addition. -/
def followAux (lnw w areaH : Nat) : List String → Int → Nat → Int × Int
  | [], lineIdx, _ => (lineIdx, 0)
  | l :: rest, lineIdx, tot =>
    let height := wrappedHeight lnw w l.length
    let tot' := (tot + height % 65536) % 65536
    let lineIdx' := lineIdx + 1
    if areaH < tot' then (lineIdx', ((tot' - areaH : Nat) : Int))
    else if tot' = areaH then (lineIdx', 0)
    else followAux lnw w areaH rest lineIdx' tot'

/-- Model of `Position::follow_get_start_pos`: walk the line buffer from
the newest entry backward accumulating wrapped heights until the viewport
height `areaH` is reached or exceeded; returns `(start line, offset)`. -/
def follow_get_start_pos (lnw w areaH : Nat) (lines : List String) : Int × Int :=
  let r := followAux lnw w areaH lines.reverse (-1) 0
  ((lines.length : Int) - 1 - r.1, r.2)

/-- Model of `Position::do_movement` from `src/wraptext.rs`. `lnw` is
`line_number_width`, `w`/`areaH` are `text_area.width`/`text_area.height`. -/
def do_movement (mov : Movement) (lnw w areaH : Nat) (lines : List String)
    (p : Position) : Position :=
  match mov with
  | .ScrollUp =>
    match p with
    | .At line offset =>
      if offset = 0 then
        if line ≠ 0 then
          let line' := line - 1
          let height := hht lnw w lines line'.toNat
          .At line' ((height : Int) - 1)
        else .At line offset
      else .At line (offset - 1)
    | .Follow =>
      let r := follow_get_start_pos lnw w areaH lines
      .At r.1 r.2
  | .ScrollDown =>
    match p with
    | .At line offset =>
      let height := hht lnw w lines line.toNat
      if (height : Int) ≤ offset + 1 then
        if (lines.length : Int) - 1 ≤ line then
          .At line (min ((areaH : Int) - 1) (offset + 1))
        else .At (line + 1) 0
      else .At line (offset + 1)
    | .Follow =>
      let r := follow_get_start_pos lnw w areaH lines
      .At r.1 r.2
  | .Follow => .Follow

/-- Application of the queued movements, in FIFO order, as done at the top
of `WrappableTextWidget::render` before the queue is cleared. -/
def applyMovements (lnw w areaH : Nat) (lines : List String)
    (p : Position) (ms : List Movement) : Position :=
  ms.foldl (fun q m => do_movement m lnw w areaH lines q) p

/-- Line-index part of the scroll-state invariant: an `At` position holds
an in-range line index. -/
def lineOK (lines : List String) : Position → Prop
  | .At l _ => 0 ≤ l ∧ l < (lines.length : Int)
  | .Follow => True

/-- Full scroll-state invariant maintained by `do_movement`: an `At`
position has an in-range line, a nonnegative offset that stays below the
line's wrapped height on every non-last line, and in general stays below
`max (wrapped height) (viewport height)` — the last line's offset may
legitimately exceed the wrapped height because the `ScrollDown` branch
clamps it to `text_area.height - 1` instead of the last wrapped row. -/
def validAt (lnw w areaH : Nat) (lines : List String) : Position → Prop
  | .At l o => 0 ≤ l ∧ l < (lines.length : Int) ∧ 0 ≤ o ∧
      (l + 1 < (lines.length : Int) → o + 1 ≤ (hht lnw w lines l.toNat : Int)) ∧
      o + 1 ≤ (max (hht lnw w lines l.toNat) areaH : Int)
  | .Follow => True

/-- One queued `ScrollUp` step. -/
def upStep (lnw w areaH : Nat) (lines : List String) (p : Position) : Position :=
  do_movement .ScrollUp lnw w areaH lines p

/-- One queued `ScrollDown` step. -/
def downStep (lnw w areaH : Nat) (lines : List String) (p : Position) : Position :=
  do_movement .ScrollDown lnw w areaH lines p

/-- `n`-fold application of a scroll step. -/
def stepIter (f : Position → Position) : Nat → Position → Position
  | 0, p => p
  | n + 1, p => stepIter f n (f p)

/-- A `ScrollUp` is clamped exactly at the first line's first row. -/
def upClamped (p : Position) : Prop := p = .At 0 0

instance (p : Position) : Decidable (upClamped p) :=
  inferInstanceAs (Decidable (p = .At 0 0))

/-- A `ScrollDown` is clamped when it is at (or past) the last wrapped
row of the last line and the `min (text_area.height - 1)` clamp truncates
the increment. -/
def downClamped (lnw w areaH : Nat) (lines : List String) : Position → Prop
  | .At l o => (hht lnw w lines l.toNat : Int) ≤ o + 1 ∧
      (lines.length : Int) - 1 ≤ l ∧ (areaH : Int) - 1 < o + 1
  | .Follow => False

instance (lnw w areaH : Nat) (lines : List String) (p : Position) :
    Decidable (downClamped lnw w areaH lines p) :=
  match p with
  | .At l o => inferInstanceAs (Decidable ((hht lnw w lines l.toNat : Int) ≤ o + 1 ∧
      (lines.length : Int) - 1 ≤ l ∧ (areaH : Int) - 1 < o + 1))
  | .Follow => inferInstanceAs (Decidable False)

/-- Uppercase hexadecimal digit, as produced by the `X` format. -/
def hexDigit (n : Nat) : Char :=
  if n < 10 then Char.ofNat (48 + n) else Char.ofNat (65 + (n - 10))

/-- Model of `format!("{byte:X}")` for a byte value (no padding: one
digit below 16, two digits otherwise). -/
def hexByte (b : Nat) : String :=
  if b < 16 then String.mk [hexDigit b]
  else String.mk [hexDigit (b / 16), hexDigit (b % 16)]

/-- The string appended for a non-newline byte in `App::parse_byte`:
`std::str::from_utf8(&[byte])` succeeds exactly for bytes below 0x80
(single-byte UTF-8 units), which are echoed as the character itself;
any other byte is displayed as `0x` followed by its uppercase hex. -/
def byteStr (b : Nat) : String :=
  if b < 128 then String.mk [Char.ofNat b]
  else "0x" ++ hexByte b

/-- The transformed content contributed by one input byte: a literal
newline for 0x0A, otherwise `byteStr`. -/
def transform (b : Nat) : String :=
  if b = 10 then "\n" else byteStr b

/-- Concatenation of a list of strings. -/
def concatAll : List String → String
  | [] => ""
  | s :: rest => s ++ concatAll rest

/-- The Line Buffer entries joined with a newline between consecutive
entries (the claim's reading of the buffer). -/
def joinNL : List String → String
  | [] => ""
  | [s] => s
  | s :: rest => s ++ "\n" ++ joinNL rest

/-- Model of `wraptext.lines.last_mut().unwrap().push_str(&str)`:
append to the last entry (the `unwrap` panics on an empty buffer; the
model leaves `[]` unchanged and the invariant keeps the buffer
nonempty). -/
def pushLast (t : String) : List String → List String
  | [] => []
  | [s] => [s ++ t]
  | s :: rest => s :: pushLast t rest

/-- Model of `struct Grapher` (src/app.rs): the sample series, the
window length and the visible window bounds. `f64` values are modelled
as exact rationals; the fixed `value_pattern` handed over by `main`
(`(\-?\d+\.?[\d]*)`) is modelled separately by `firstMatch`. -/
structure Grapher where
  data : List (ℚ × ℚ)
  window_len : Nat
  window0 : ℚ
  window1 : ℚ
deriving DecidableEq

/-- The grapher ingestion step inside `App::parse_byte`: if the series
length plus `window_len / 10` exceeds the upper window bound, slide both
bounds forward by one; then append `(len, val)`. -/
def ingest (g : Grapher) (val : ℚ) : Grapher :=
  if (g.data.length : ℚ) + (g.window_len : ℚ) / 10 > g.window1 then
    { data := g.data ++ [((g.data.length : ℚ), val)]
      window_len := g.window_len
      window0 := g.window0 + 1
      window1 := g.window1 + 1 }
  else
    { data := g.data ++ [((g.data.length : ℚ), val)]
      window_len := g.window_len
      window0 := g.window0
      window1 := g.window1 }

/-- Greedy match of `\d+\.?\d*` at the start of `cs` (`none` when no
leading digit). -/
def numAfterSign (cs : List Char) : Option (List Char) :=
  match cs.takeWhile Char.isDigit with
  | [] => none
  | ds =>
    match cs.dropWhile Char.isDigit with
    | '.' :: rest2 => some (ds ++ '.' :: rest2.takeWhile Char.isDigit)
    | _ => some ds

/-- Greedy match of `\-?\d+\.?\d*` at the start of `cs`. -/
def matchAt : List Char → Option (List Char)
  | '-' :: rest => (numAfterSign rest).map (fun m => '-' :: m)
  | cs => numAfterSign cs

/-- Leftmost-first match of the extraction pattern
`(\-?\d+\.?[\d]*)` from `src/main.rs` over a completed line (`\d`
restricted to ASCII digits, the only digits the transcript contains). -/
def firstMatch : List Char → Option (List Char)
  | [] => none
  | c :: rest =>
    match matchAt (c :: rest) with
    | some m => some m
    | none => firstMatch rest

/-- Numeric value of a run of ASCII digits. -/
def digitsVal (cs : List Char) : Nat :=
  cs.foldl (fun a c => 10 * a + (c.toNat - 48)) 0

/-- Exact value of `\d+\.?\d*`. Models `str::parse::<f64>`, which
always succeeds on strings of this shape, with exact rational
arithmetic in place of the final float rounding. -/
def parseUnsigned (cs : List Char) : ℚ :=
  match cs.dropWhile Char.isDigit with
  | '.' :: frac =>
      (digitsVal (cs.takeWhile Char.isDigit) : ℚ) +
        (digitsVal (frac.takeWhile Char.isDigit) : ℚ) /
          (10 : ℚ) ^ (frac.takeWhile Char.isDigit).length
  | _ => (digitsVal (cs.takeWhile Char.isDigit) : ℚ)

/-- Exact value of a matched token `\-?\d+\.?\d*`. -/
def parseNum : List Char → ℚ
  | '-' :: rest => -(parseUnsigned rest)
  | cs => parseUnsigned cs

/-- The grapher block run on a completed line inside `App::parse_byte`:
run the pattern on `cur_line`; on a match, parse and ingest; on no
match (or no grapher), do nothing. -/
def graphStep (og : Option Grapher) (cur : String) : Option Grapher :=
  match og with
  | none => none
  | some g =>
    match firstMatch cur.data with
    | some tok => some (ingest g (parseNum tok))
    | none => some g

/-- Model of the `App` state seen by `parse_byte` plus its output file:
`hasFile` is whether `outfile` is `Some`, `writeOk` is whether the
underlying `write_all`/`flush` calls succeed, and `fileWritten` is the
concatenation of all bytes successfully written so far. `lines` is the
`WrapText` line buffer and `curLine` is `cur_line`. -/
structure AppState where
  hasFile : Bool
  writeOk : Bool
  fileWritten : String
  lines : List String
  curLine : String
  grapher : Option Grapher
deriving DecidableEq

/-- One `outfile.write_all(..)?; outfile.flush()?` pair (skipped when no
file is configured; fails returning the error when `writeOk` is false). -/
def writeToFile (s : AppState) (t : String) : Except Unit Unit × AppState :=
  if s.hasFile then
    if s.writeOk then (Except.ok (), { s with fileWritten := s.fileWritten ++ t })
    else (Except.error (), s)
  else (Except.ok (), s)

/-- Model of `App::parse_byte` (src/app.rs, lines 225-275). The returned
state reflects exactly the mutations performed before the `?` returned,
matching the Rust control flow: for the newline byte the file write
comes first, then the new buffer entry, the grapher update and the
`cur_line` clear; for any other byte the buffer and `cur_line` are
extended first and the file write comes last. -/
def parse_byte (s : AppState) (byte : Nat) : Except Unit Unit × AppState :=
  if byte = 10 then
    match writeToFile s "\n" with
    | (Except.error e, s1) => (Except.error e, s1)
    | (Except.ok _, s1) =>
      let s2 := { s1 with lines := s1.lines ++ [""] }
      let s3 := { s2 with grapher := graphStep s2.grapher s2.curLine }
      (Except.ok (), { s3 with curLine := "" })
  else
    let s1 := { s with lines := pushLast (byteStr byte) s.lines,
                       curLine := s.curLine ++ byteStr byte }
    writeToFile s1 (byteStr byte)

/-- The byte-feeding loop of `App::run`: parse bytes in order, stopping
with the error if `parse_byte` fails. -/
def feed (s : AppState) : List Nat → Except Unit AppState
  | [] => Except.ok s
  | b :: bs =>
    match parse_byte s b with
    | (Except.ok _, s') => feed s' bs
    | (Except.error e, _) => Except.error e

/-- Initial grapher from `main`: empty series, window `[0, graph_len]`. -/
def initGrapher (wl : Nat) : Grapher :=
  { data := [], window_len := wl, window0 := 0, window1 := (wl : ℚ) }

/-- Initial app state of `App::run`: one empty buffer line, empty
`cur_line`, nothing written, writes succeeding. -/
def initApp (hasF : Bool) (g : Option Grapher) : AppState :=
  { hasFile := hasF, writeOk := true, fileWritten := "", lines := [""],
    curLine := "", grapher := g }

/-- The buffer-side mutation performed by `parse_byte` for a non-newline
byte, before the file write: extend the last buffer line and `cur_line`. -/
def mutated (s : AppState) (b : Nat) : AppState :=
  { s with lines := pushLast (byteStr b) s.lines,
           curLine := s.curLine ++ byteStr b }

/-- Invariant of the byte-parser run for C1: a configured, healthy output
file, a nonempty Line Buffer, and a transcript equal to the
newline-joined buffer. -/
def goodState (s : AppState) : Prop :=
  s.hasFile = true ∧ s.writeOk = true ∧ s.lines ≠ [] ∧
  s.fileWritten = joinNL s.lines

/-- The state reached after feeding `A`, 0xFF, `B`, 0x0A from the
initial state. -/
def c1FinalState : AppState :=
  { hasFile := true, writeOk := true, fileWritten := "A0xFFB\n",
    lines := ["A0xFFB", ""], curLine := "", grapher := none }

/-- A state with an output file whose writes fail, as used by the C9
counterexample. -/
def failingApp : AppState :=
  { hasFile := true, writeOk := false, fileWritten := "", lines := [""],
    curLine := "", grapher := none }

/-- Number of samples lying inside the visible window. -/
def countInside (g : Grapher) : Nat :=
  (g.data.filter (fun p => decide (g.window0 ≤ p.1 ∧ p.1 ≤ g.window1))).length

/-- The expected x-coordinates of the first `n` samples: `0, 1, ..., n-1`
as rationals. -/
def idxList (n : Nat) : List ℚ :=
  List.map (fun i : Nat => (i : ℚ)) (List.range n)

/-- Invariant of the grapher under ingestion, with `k` the number of
window slides so far. -/
def grapherInv (wl : Nat) (g : Grapher) : Prop :=
  g.window_len = wl ∧
  ∃ k : Nat, g.window0 = (k : ℚ) ∧ g.window1 = (wl : ℚ) + (k : ℚ) ∧
    g.data.map Prod.fst = idxList g.data.length ∧
    (g.data.length : ℚ) + (wl : ℚ) / 10 ≤ (wl : ℚ) + (k : ℚ) + 1 ∧
    (k = 0 ∨ (k : ℚ) < (g.data.length : ℚ) - (wl : ℚ) + (wl : ℚ) / 10)

lemma one_le_wrappedHeight (lnw w len : Nat) : 1 ≤ wrappedHeight lnw w len :=
  Nat.succ_le_succ (Nat.zero_le _)

lemma one_le_hht (lnw w : Nat) (lines : List String) (i : Nat) :
    1 ≤ hht lnw w lines i :=
  one_le_wrappedHeight _ _ _

/-- Unfolding of the loop body of `followAux` on a nonempty list. -/
lemma followAux_cons (lnw w areaH : Nat) (l : String) (rest : List String)
    (lineIdx : Int) (tot : Nat) :
    followAux lnw w areaH (l :: rest) lineIdx tot =
      if areaH < (tot + wrappedHeight lnw w l.length % 65536) % 65536 then
        (lineIdx + 1,
          (((tot + wrappedHeight lnw w l.length % 65536) % 65536 - areaH : Nat) : Int))
      else if (tot + wrappedHeight lnw w l.length % 65536) % 65536 = areaH then
        (lineIdx + 1, 0)
      else
        followAux lnw w areaH rest (lineIdx + 1)
          ((tot + wrappedHeight lnw w l.length % 65536) % 65536) := rfl

/-- The backward walk visits between 1 and `revLines.length` lines, so the
returned `line_idx` is the entry value plus that count. -/
lemma followAux_count (lnw w areaH : Nat) :
    ∀ (revLines : List String) (idx : Int) (tot : Nat), revLines ≠ [] →
    ∃ j : Nat, j < revLines.length ∧
      (followAux lnw w areaH revLines idx tot).1 = idx + 1 + (j : Int) := by
  intro revLines
  induction revLines with
  | nil => intro idx tot h; exact absurd rfl h
  | cons l rest ih =>
    intro idx tot _
    rw [followAux_cons]
    by_cases h1 : areaH < (tot + wrappedHeight lnw w l.length % 65536) % 65536
    · rw [if_pos h1]
      exact ⟨0, by simp, by simp⟩
    · rw [if_neg h1]
      by_cases h2 : (tot + wrappedHeight lnw w l.length % 65536) % 65536 = areaH
      · rw [if_pos h2]
        exact ⟨0, by simp, by simp⟩
      · rw [if_neg h2]
        rcases List.eq_nil_or_concat rest with hr | hr
        · subst hr
          exact ⟨0, by simp, by simp [followAux]⟩
        · have hne : rest ≠ [] := by
            rcases hr with ⟨xs, x, rfl⟩; simp
          obtain ⟨j, hj, hfst⟩ := ih (idx + 1)
            ((tot + wrappedHeight lnw w l.length % 65536) % 65536) hne
          refine ⟨j + 1, by simpa using Nat.succ_lt_succ hj, ?_⟩
          rw [hfst]
          push_cast
          ring

/-- When the walk starts strictly below the viewport height, the returned
offset is at most the last visited line's wrapped height minus one (this
holds even when the 16-bit accumulation wraps around). -/
lemma followAux_off (lnw w areaH : Nat) :
    ∀ (revLines : List String) (idx : Int) (tot : Nat),
      revLines ≠ [] → tot < areaH → tot < 65536 →
      ∃ (j off : Nat), j < revLines.length ∧
        followAux lnw w areaH revLines idx tot = (idx + 1 + (j : Int), (off : Int)) ∧
        off + 1 ≤ wrappedHeight lnw w (revLines.getD j "").length := by
  intro revLines
  induction revLines with
  | nil => intro idx tot h; exact absurd rfl h
  | cons l rest ih =>
    intro idx tot _ htot hlt
    rw [followAux_cons]
    by_cases h1 : areaH < (tot + wrappedHeight lnw w l.length % 65536) % 65536
    · rw [if_pos h1]
      refine ⟨0, (tot + wrappedHeight lnw w l.length % 65536) % 65536 - areaH,
        by simp, by simp, ?_⟩
      have hh : wrappedHeight lnw w l.length % 65536 ≤ wrappedHeight lnw w l.length :=
        Nat.mod_le _ _
      simp only [List.getD_cons_zero]
      omega
    · rw [if_neg h1]
      by_cases h2 : (tot + wrappedHeight lnw w l.length % 65536) % 65536 = areaH
      · rw [if_pos h2]
        exact ⟨0, 0, by simp, by simp, by
          simpa using one_le_wrappedHeight lnw w l.length⟩
      · rw [if_neg h2]
        rcases List.eq_nil_or_concat rest with hr | hr
        · subst hr
          exact ⟨0, 0, by simp, by simp [followAux], by
            simpa using one_le_wrappedHeight lnw w l.length⟩
        · have hne : rest ≠ [] := by
            rcases hr with ⟨xs, x, rfl⟩; simp
          obtain ⟨j, off, hj, heq, hoff⟩ := ih (idx + 1)
            ((tot + wrappedHeight lnw w l.length % 65536) % 65536) hne
            (by omega) (Nat.mod_lt _ (by omega))
          refine ⟨j + 1, off, by simpa using Nat.succ_lt_succ hj, ?_, by
            simpa using hoff⟩
          rw [heq]
          refine congrArg (fun z => (z, (off : Int))) ?_
          push_cast
          ring

/-- The start line returned by `follow_get_start_pos` is a valid index of
a nonempty line buffer (for any viewport dimensions). -/
lemma follow_pos_line (lnw w areaH : Nat) (lines : List String)
    (h : lines ≠ []) :
    ∃ ln : Nat, (follow_get_start_pos lnw w areaH lines).1 = (ln : Int) ∧
      ln < lines.length := by
  have hrev : lines.reverse ≠ [] := by simpa using h
  obtain ⟨j, hj, hfst⟩ := followAux_count lnw w areaH lines.reverse (-1) 0 hrev
  rw [List.length_reverse] at hj
  refine ⟨lines.length - 1 - j, ?_, by omega⟩
  show (lines.length : Int) - 1 - (followAux lnw w areaH lines.reverse (-1) 0).1 = _
  rw [hfst]
  push_cast [Nat.cast_sub (by omega : j ≤ lines.length - 1),
    Nat.cast_sub (by omega : 1 ≤ lines.length)]
  ring

/-- Whenever the viewport has height at least 1 and the buffer is
nonempty, `follow_get_start_pos` returns an in-range line together with
an offset strictly below that line's wrapped height. -/
lemma follow_pos_valid (lnw w areaH : Nat) (lines : List String)
    (h : lines ≠ []) (hA : 1 ≤ areaH) :
    ∃ ln off : Nat,
      follow_get_start_pos lnw w areaH lines = ((ln : Int), (off : Int)) ∧
      ln < lines.length ∧ off + 1 ≤ hht lnw w lines ln := by
  have hrev : lines.reverse ≠ [] := by simpa using h
  obtain ⟨j, off, hj, heq, hoff⟩ :=
    followAux_off lnw w areaH lines.reverse (-1) 0 hrev hA (by omega)
  rw [List.length_reverse] at hj
  refine ⟨lines.length - 1 - j, off, ?_, by omega, ?_⟩
  · show ((lines.length : Int) - 1 - (followAux lnw w areaH lines.reverse (-1) 0).1,
      (followAux lnw w areaH lines.reverse (-1) 0).2) = _
    rw [heq]
    refine congrArg (fun z => (z, (off : Int))) ?_
    push_cast [Nat.cast_sub (by omega : j ≤ lines.length - 1),
      Nat.cast_sub (by omega : 1 ≤ lines.length)]
    ring
  · have hrg : lines.reverse.getD j "" = lines.getD (lines.length - 1 - j) "" := by
      have h1 : j < lines.reverse.length := by simpa using hj
      have h2 : lines.length - 1 - j < lines.length := by omega
      rw [List.getD_eq_getElem _ _ h1, List.getD_eq_getElem _ _ h2]
      rw [List.getElem_reverse]
    unfold hht
    rw [← hrg]
    exact hoff

/-- Unfolding of `do_movement` for `ScrollUp` at an `At` position. -/
lemma do_movement_up_at (lnw w areaH : Nat) (lines : List String) (l o : Int) :
    do_movement .ScrollUp lnw w areaH lines (.At l o) =
      if o = 0 then
        if l ≠ 0 then
          .At (l - 1) ((hht lnw w lines (l - 1).toNat : Int) - 1)
        else .At l o
      else .At l (o - 1) := rfl

/-- Unfolding of `do_movement` for `ScrollDown` at an `At` position. -/
lemma do_movement_down_at (lnw w areaH : Nat) (lines : List String) (l o : Int) :
    do_movement .ScrollDown lnw w areaH lines (.At l o) =
      if (hht lnw w lines l.toNat : Int) ≤ o + 1 then
        if (lines.length : Int) - 1 ≤ l then
          .At l (min ((areaH : Int) - 1) (o + 1))
        else .At (l + 1) 0
      else .At l (o + 1) := rfl

/-- Unfolding of `do_movement` for a scroll movement at `Follow`. -/
lemma do_movement_up_follow (lnw w areaH : Nat) (lines : List String) :
    do_movement .ScrollUp lnw w areaH lines .Follow =
      .At (follow_get_start_pos lnw w areaH lines).1
        (follow_get_start_pos lnw w areaH lines).2 := rfl

lemma do_movement_down_follow (lnw w areaH : Nat) (lines : List String) :
    do_movement .ScrollDown lnw w areaH lines .Follow =
      .At (follow_get_start_pos lnw w areaH lines).1
        (follow_get_start_pos lnw w areaH lines).2 := rfl

lemma totHeights_cons (lnw w : Nat) (l : String) (rest : List String) :
    totHeights lnw w (l :: rest) =
      wrappedHeight lnw w l.length + totHeights lnw w rest := by
  simp [totHeights]

lemma totHeights_reverse (lnw w : Nat) (lines : List String) :
    totHeights lnw w lines.reverse = totHeights lnw w lines := by
  simp [totHeights, List.sum_reverse]

/-- When the whole remaining content is at least one screen and the sum
of all heights stays below 2^16 (so the `u16` accumulator never wraps),
the walk stops at a line such that the heights of the visited lines
exceed the entry total by exactly `areaH + off`. -/
lemma followAux_exact (lnw w areaH : Nat) :
    ∀ (revLines : List String) (idx : Int) (tot : Nat),
      tot < areaH →
      areaH ≤ tot + totHeights lnw w revLines →
      tot + totHeights lnw w revLines ≤ 65535 →
      ∃ (j off : Nat), j < revLines.length ∧
        followAux lnw w areaH revLines idx tot = (idx + 1 + (j : Int), (off : Int)) ∧
        tot + totHeights lnw w (revLines.take (j + 1)) = areaH + off ∧
        off + 1 ≤ wrappedHeight lnw w (revLines.getD j "").length := by
  intro revLines
  induction revLines with
  | nil =>
    intro idx tot h1 h2 _
    simp [totHeights] at h2
    omega
  | cons l rest ih =>
    intro idx tot h1 h2 h3
    rw [totHeights_cons] at h2 h3
    have e1 : (tot + wrappedHeight lnw w l.length % 65536) % 65536 =
        tot + wrappedHeight lnw w l.length := by
      have hs : totHeights lnw w rest ≤ totHeights lnw w rest := le_refl _
      omega
    rw [followAux_cons, e1]
    by_cases hgt : areaH < tot + wrappedHeight lnw w l.length
    · rw [if_pos hgt]
      refine ⟨0, tot + wrappedHeight lnw w l.length - areaH, by simp, by simp, ?_, ?_⟩
      · simp only [List.take_succ_cons, List.take_zero]
        rw [totHeights_cons]
        simp [totHeights]
        omega
      · simp only [List.getD_cons_zero]
        omega
    · rw [if_neg hgt]
      by_cases heq : tot + wrappedHeight lnw w l.length = areaH
      · rw [if_pos heq]
        refine ⟨0, 0, by simp, by simp, ?_, by
          simpa using one_le_wrappedHeight lnw w l.length⟩
        simp only [List.take_succ_cons, List.take_zero]
        rw [totHeights_cons]
        simp [totHeights]
        omega
      · rw [if_neg heq]
        obtain ⟨j, off, hj, hfeq, hsum, hoff⟩ := ih (idx + 1)
          (tot + wrappedHeight lnw w l.length)
          (by omega) (by omega) (by omega)
        refine ⟨j + 1, off, by simpa using Nat.succ_lt_succ hj, ?_, ?_, by
          simpa using hoff⟩
        · rw [hfeq]
          refine congrArg (fun z => (z, (off : Int))) ?_
          push_cast
          ring
        · simp only [List.take_succ_cons]
          rw [totHeights_cons]
          omega

/-- C2 counterexample: the claim as stated fails once the `u16`
accumulator `tot_height` wraps. With viewport width 1, height 2 and the
buffer `["", l]` where `l` has 65532 characters (so its wrapped height is
exactly 65536 ≡ 0 mod 2^16), the walk skips the huge last line and
returns start position `(0, 2)`; the wrapped rows from there to the end
total 65540 - 2, not the viewport height 2. -/
theorem c2_counterexample :
    follow_get_start_pos 4 1 2
      ["", String.mk (List.replicate 65532 'a')] = (0, 2) ∧
    totHeights 4 1
      (["", String.mk (List.replicate 65532 'a')].drop 0) = 65540 ∧
    ¬(65540 - 2 = 2) := by
  have hlen : (String.mk (List.replicate 65532 'a')).length = 65532 := by
    show (List.replicate 65532 'a').length = 65532
    exact List.length_replicate 65532 _
  have hh : wrappedHeight 4 1 (String.mk (List.replicate 65532 'a')).length
      = 65536 := by
    rw [hlen]
    norm_num [wrappedHeight]
  have hempty : String.length "" = 0 := rfl
  have hh0 : wrappedHeight 4 1 (String.length "") = 4 := by
    rw [hempty]
    norm_num [wrappedHeight]
  refine ⟨?_, ?_, by norm_num⟩
  · unfold follow_get_start_pos
    have hrev : (["", String.mk (List.replicate 65532 'a')] : List String).reverse =
        [String.mk (List.replicate 65532 'a'), ""] := rfl
    rw [hrev]
    rw [followAux_cons, hh]
    norm_num
    rw [followAux_cons, hh0]
    norm_num
  · simp only [List.drop_zero]
    rw [totHeights_cons, totHeights_cons, hh0, hh]
    show 4 + (65536 + totHeights 4 1 []) = 65540
    norm_num [totHeights]

/-- C2 (amended): for a nonempty buffer whose total wrapped height is at
least one screen and fits in the 16-bit accumulator (`≤ 65535`), with
viewport width and height at least 1, the Follow-mode start position
`(ln, off)` satisfies: the wrapped rows from `(ln, off)` to the end of
the buffer total exactly the viewport height, i.e.
`totHeights (drop ln) = areaH + off` with `off` inside line `ln`, so the
rendered bottom row of the viewport is the last row of the last line. -/
theorem c2_follow_fills_viewport (lnw w areaH : Nat) (lines : List String)
    (hne : lines ≠ []) (_hw : 1 ≤ w) (hA : 1 ≤ areaH)
    (hscreen : areaH ≤ totHeights lnw w lines)
    (hbound : totHeights lnw w lines ≤ 65535) :
    ∃ ln off : Nat,
      follow_get_start_pos lnw w areaH lines = ((ln : Int), (off : Int)) ∧
      ln < lines.length ∧
      totHeights lnw w (lines.drop ln) = areaH + off ∧
      off + 1 ≤ hht lnw w lines ln := by
  obtain ⟨j, off, hj, hfeq, hsum, hoff⟩ := followAux_exact lnw w areaH
    lines.reverse (-1) 0 hA
    (by rw [totHeights_reverse]; omega)
    (by rw [totHeights_reverse]; omega)
  rw [List.length_reverse] at hj
  have hlen1 : 1 ≤ lines.length := by
    cases lines with
    | nil => exact absurd rfl hne
    | cons a b => simp
  refine ⟨lines.length - 1 - j, off, ?_, by omega, ?_, ?_⟩
  · show ((lines.length : Int) - 1 - (followAux lnw w areaH lines.reverse (-1) 0).1,
      (followAux lnw w areaH lines.reverse (-1) 0).2) = _
    rw [hfeq]
    refine congrArg (fun z => (z, (off : Int))) ?_
    push_cast [Nat.cast_sub (by omega : j ≤ lines.length - 1),
      Nat.cast_sub (by omega : 1 ≤ lines.length)]
    ring
  · have htake : lines.reverse.take (j + 1) =
        (lines.drop (lines.length - (j + 1))).reverse := by
      rw [List.take_reverse]
    have hd : lines.length - (j + 1) = lines.length - 1 - j := by omega
    rw [htake, hd, totHeights_reverse] at hsum
    omega
  · have hrg : lines.reverse.getD j "" = lines.getD (lines.length - 1 - j) "" := by
      have hb1 : j < lines.reverse.length := by simpa using hj
      have hb2 : lines.length - 1 - j < lines.length := by omega
      rw [List.getD_eq_getElem _ _ hb1, List.getD_eq_getElem _ _ hb2]
      rw [List.getElem_reverse]
    unfold hht
    rw [← hrg]
    exact hoff

theorem c2_follow_fills_viewport_witness :
    ((["abcdefgh", "x"] : List String) ≠ [] ∧ 1 ≤ 4 ∧ 1 ≤ 2 ∧
      2 ≤ totHeights 4 4 ["abcdefgh", "x"] ∧
      totHeights 4 4 ["abcdefgh", "x"] ≤ 65535) ∧
    (∃ ln off : Nat,
      follow_get_start_pos 4 4 2 ["abcdefgh", "x"] = ((ln : Int), (off : Int)) ∧
      ln < (["abcdefgh", "x"] : List String).length ∧
      totHeights 4 4 ((["abcdefgh", "x"] : List String).drop ln) = 2 + off ∧
      off + 1 ≤ hht 4 4 ["abcdefgh", "x"] ln) :=
  ⟨⟨by decide, by decide, by decide, by decide, by decide⟩,
    c2_follow_fills_viewport 4 4 2 ["abcdefgh", "x"] (by decide) (by decide)
      (by decide) (by decide) (by decide)⟩

lemma lineOK_step (lnw w areaH : Nat) (lines : List String)
    (hne : lines ≠ []) (m : Movement) (p : Position) (hp : lineOK lines p) :
    lineOK lines (do_movement m lnw w areaH lines p) := by
  cases m with
  | ScrollUp =>
    cases p with
    | At l o =>
      obtain ⟨h0, h1⟩ := hp
      rw [do_movement_up_at]
      by_cases ho : o = 0
      · rw [if_pos ho]
        by_cases hl : l ≠ 0
        · rw [if_pos hl]
          exact ⟨by omega, by omega⟩
        · rw [if_neg hl]
          exact ⟨h0, h1⟩
      · rw [if_neg ho]
        exact ⟨h0, h1⟩
    | Follow =>
      obtain ⟨ln, hln, hlt⟩ := follow_pos_line lnw w areaH lines hne
      rw [do_movement_up_follow, hln]
      exact ⟨by positivity, by exact_mod_cast hlt⟩
  | ScrollDown =>
    cases p with
    | At l o =>
      obtain ⟨h0, h1⟩ := hp
      rw [do_movement_down_at]
      by_cases hh : (hht lnw w lines l.toNat : Int) ≤ o + 1
      · rw [if_pos hh]
        by_cases hl : (lines.length : Int) - 1 ≤ l
        · rw [if_pos hl]
          exact ⟨h0, h1⟩
        · rw [if_neg hl]
          exact ⟨by omega, by omega⟩
      · rw [if_neg hh]
        exact ⟨h0, h1⟩
    | Follow =>
      obtain ⟨ln, hln, hlt⟩ := follow_pos_line lnw w areaH lines hne
      rw [do_movement_down_follow, hln]
      exact ⟨by positivity, by exact_mod_cast hlt⟩
  | Follow =>
    cases p <;> exact trivial

lemma lineOK_applyMovements (lnw w areaH : Nat) (lines : List String)
    (hne : lines ≠ []) :
    ∀ (ms : List Movement) (p : Position), lineOK lines p →
      lineOK lines (applyMovements lnw w areaH lines p ms) := by
  intro ms
  induction ms with
  | nil => intro p hp; exact hp
  | cons m rest ih =>
    intro p hp
    exact ih _ (lineOK_step lnw w areaH lines hne m p hp)

/-- C10: starting from `Follow`, every position reachable through any
sequence of queued movements keeps its line index inside
`[0, lines.len())`, so the slice indexings `lines[line as usize]` inside
`do_movement` and the backward walk of `follow_get_start_pos` stay in
bounds, and (the viewport width being at least 1) the divisions by
`text_area.width` never divide by zero. -/
theorem c10_index_safety (lnw w areaH : Nat) (lines : List String)
    (_hw : 1 ≤ w) (hne : lines ≠ []) :
    ∀ (ms : List Movement) (l o : Int),
      applyMovements lnw w areaH lines .Follow ms = .At l o →
      0 ≤ l ∧ l < (lines.length : Int) := by
  intro ms l o happ
  have h := lineOK_applyMovements lnw w areaH lines hne ms .Follow trivial
  rw [happ] at h
  exact h

theorem c10_index_safety_witness :
    (1 ≤ 4 ∧ (["ab", "c"] : List String) ≠ []) ∧
    (0 ≤ (1 : Int) ∧ (1 : Int) < ((["ab", "c"] : List String).length : Int)) :=
  ⟨⟨by decide, by decide⟩,
    c10_index_safety 4 4 2 ["ab", "c"] (by decide) (by decide)
      [.ScrollDown] 1 0 (by decide)⟩

lemma validAt_follow (lnw w areaH : Nat) (lines : List String) :
    validAt lnw w areaH lines .Follow := trivial

lemma validAt_at_iff (lnw w areaH : Nat) (lines : List String) (l o : Int) :
    validAt lnw w areaH lines (.At l o) ↔
      0 ≤ l ∧ l < (lines.length : Int) ∧ 0 ≤ o ∧
      (l + 1 < (lines.length : Int) → o + 1 ≤ (hht lnw w lines l.toNat : Int)) ∧
      o + 1 ≤ (max (hht lnw w lines l.toNat) areaH : Int) := Iff.rfl

lemma validAt_resolved_follow (lnw w areaH : Nat) (lines : List String)
    (hne : lines ≠ []) (hA : 1 ≤ areaH) :
    validAt lnw w areaH lines
      (.At (follow_get_start_pos lnw w areaH lines).1
        (follow_get_start_pos lnw w areaH lines).2) := by
  obtain ⟨ln, off, heq, hlt, hoff⟩ := follow_pos_valid lnw w areaH lines hne hA
  rw [heq]
  dsimp only
  have htn : ((ln : Int)).toNat = ln := Int.toNat_natCast ln
  refine ⟨by positivity, by exact_mod_cast hlt, by positivity, ?_, ?_⟩
  · intro _
    rw [htn]
    exact_mod_cast hoff
  · rw [htn]
    have : hht lnw w lines ln ≤ max (hht lnw w lines ln) areaH := le_max_left _ _
    have h2 : off + 1 ≤ max (hht lnw w lines ln) areaH := le_trans hoff this
    exact_mod_cast h2

lemma validAt_step (lnw w areaH : Nat) (lines : List String)
    (hne : lines ≠ []) (hA : 1 ≤ areaH) (m : Movement) (p : Position)
    (hp : validAt lnw w areaH lines p) :
    validAt lnw w areaH lines (do_movement m lnw w areaH lines p) := by
  cases m with
  | ScrollUp =>
    cases p with
    | At l o =>
      obtain ⟨h0, h1, h2, h3, h4⟩ := hp
      rw [do_movement_up_at]
      by_cases ho : o = 0
      · rw [if_pos ho]
        by_cases hl : l ≠ 0
        · rw [if_pos hl]
          have hL : 1 ≤ l := by omega
          have hH : 1 ≤ (hht lnw w lines (l - 1).toNat : Int) := by
            exact_mod_cast one_le_hht lnw w lines (l - 1).toNat
          refine ⟨by omega, by omega, by omega, fun _ => by omega, ?_⟩
          have : hht lnw w lines (l - 1).toNat ≤
              max (hht lnw w lines (l - 1).toNat) areaH := le_max_left _ _
          have h5 : (hht lnw w lines (l - 1).toNat : Int) ≤
              (max (hht lnw w lines (l - 1).toNat) areaH : Int) := by exact_mod_cast this
          omega
        · rw [if_neg hl]
          exact ⟨h0, h1, h2, h3, h4⟩
      · rw [if_neg ho]
        refine ⟨h0, h1, by omega, fun hl => ?_, by omega⟩
        have := h3 hl
        omega
    | Follow =>
      rw [do_movement_up_follow]
      exact validAt_resolved_follow lnw w areaH lines hne hA
  | ScrollDown =>
    cases p with
    | At l o =>
      obtain ⟨h0, h1, h2, h3, h4⟩ := hp
      rw [do_movement_down_at]
      by_cases hh : (hht lnw w lines l.toNat : Int) ≤ o + 1
      · rw [if_pos hh]
        by_cases hl : (lines.length : Int) - 1 ≤ l
        · rw [if_pos hl]
          have hmin1 : min ((areaH : Int) - 1) (o + 1) ≤ (areaH : Int) - 1 :=
            min_le_left _ _
          have hmin2 : (0 : Int) ≤ min ((areaH : Int) - 1) (o + 1) := by
            refine le_min (by omega) (by omega)
          have hmax : (areaH : Int) ≤ (max (hht lnw w lines l.toNat) areaH : Int) := by
            exact_mod_cast le_max_right (hht lnw w lines l.toNat) areaH
          refine ⟨h0, h1, hmin2, fun hcontra => by omega, by omega⟩
        · rw [if_neg hl]
          have hH : 1 ≤ (hht lnw w lines (l + 1).toNat : Int) := by
            exact_mod_cast one_le_hht lnw w lines (l + 1).toNat
          have hmax : (hht lnw w lines (l + 1).toNat : Int) ≤
              (max (hht lnw w lines (l + 1).toNat) areaH : Int) := by
            exact_mod_cast le_max_left (hht lnw w lines (l + 1).toNat) areaH
          exact ⟨by omega, by omega, by omega, fun _ => by omega, by omega⟩
      · rw [if_neg hh]
        have hmax : (hht lnw w lines l.toNat : Int) ≤
            (max (hht lnw w lines l.toNat) areaH : Int) := by
          exact_mod_cast le_max_left (hht lnw w lines l.toNat) areaH
        exact ⟨h0, h1, by omega, fun _ => by omega, by omega⟩
    | Follow =>
      rw [do_movement_down_follow]
      exact validAt_resolved_follow lnw w areaH lines hne hA
  | Follow =>
    cases p <;> exact trivial

lemma validAt_applyMovements (lnw w areaH : Nat) (lines : List String)
    (hne : lines ≠ []) (hA : 1 ≤ areaH) :
    ∀ (ms : List Movement) (p : Position), validAt lnw w areaH lines p →
      validAt lnw w areaH lines (applyMovements lnw w areaH lines p ms) := by
  intro ms
  induction ms with
  | nil => intro p hp; exact hp
  | cons m rest ih =>
    intro p hp
    exact ih _ (validAt_step lnw w areaH lines hne hA m p hp)

/-- C4 counterexample: with the one-line buffer `[""]`, viewport width 4
and height 5, resolving `Follow` and then scrolling down once yields
`At 0 1`, whose offset 1 exceeds `wrapped_height("") - 1 = 0`: the
claimed clamp to the last wrapped row does not hold — `ScrollDown` on the
last line clamps to `text_area.height - 1` instead. -/
theorem c4_counterexample :
    applyMovements 4 4 5 [""] .Follow [.ScrollDown, .ScrollDown] = .At 0 1 ∧
    wrappedHeight 4 4 (String.length "") = 1 ∧
    ¬((1 : Int) + 1 ≤ (wrappedHeight 4 4 (String.length "") : Int)) := by
  refine ⟨by decide, by decide, by decide⟩

/-- C4 (amended): for a nonempty buffer and a viewport of height ≥ 1,
every `At (line, offset)` reachable from `Follow` through queued
movements satisfies `0 ≤ line < lines.len()` and `0 ≤ offset`, with
`offset ≤ wrapped_height(line) - 1` on every non-last line; on the last
line the bound weakens to `offset ≤ max (wrapped_height line) (text_area.height) - 1`,
because a `ScrollDown` at the last wrapped row of the last line is
clamped to `text_area.height - 1`, which may lie past that row. -/
theorem c4_position_invariant (lnw w areaH : Nat) (lines : List String)
    (hA : 1 ≤ areaH) (hne : lines ≠ []) :
    ∀ (ms : List Movement) (l o : Int),
      applyMovements lnw w areaH lines .Follow ms = .At l o →
      0 ≤ l ∧ l < (lines.length : Int) ∧ 0 ≤ o ∧
      (l + 1 < (lines.length : Int) → o + 1 ≤ (hht lnw w lines l.toNat : Int)) ∧
      o + 1 ≤ (max (hht lnw w lines l.toNat) areaH : Int) := by
  intro ms l o happ
  have h := validAt_applyMovements lnw w areaH lines hne hA ms .Follow trivial
  rw [happ] at h
  exact h

theorem c4_position_invariant_witness :
    (1 ≤ 5 ∧ ([""] : List String) ≠ []) ∧
    (0 ≤ (0 : Int) ∧ (0 : Int) < (([""] : List String).length : Int) ∧
     0 ≤ (1 : Int) ∧
     ((0 : Int) + 1 < (([""] : List String).length : Int) →
       (1 : Int) + 1 ≤ (hht 4 4 [""] (Int.toNat 0) : Int)) ∧
     (1 : Int) + 1 ≤ (max (hht 4 4 [""] (Int.toNat 0)) 5 : Int)) :=
  ⟨⟨by decide, by decide⟩,
    c4_position_invariant 4 4 5 [""] (by decide) (by decide)
      [.ScrollDown, .ScrollDown] 0 1 (by decide)⟩

lemma stepIter_succ_outer (f : Position → Position) :
    ∀ (n : Nat) (p : Position), stepIter f (n + 1) p = f (stepIter f n p) := by
  intro n
  induction n with
  | zero => intro p; rfl
  | succ n ih => intro p; exact ih (f p)

/-- An unclamped `ScrollUp` from a valid `At` position is undone by one
`ScrollDown`. -/
lemma down_up_at (lnw w areaH : Nat) (lines : List String) (l o : Int)
    (hv : validAt lnw w areaH lines (.At l o))
    (hc : ¬upClamped (.At l o)) :
    downStep lnw w areaH lines (upStep lnw w areaH lines (.At l o)) = .At l o := by
  obtain ⟨h0, h1, h2, h3, h4⟩ := hv
  unfold upStep downStep
  rw [do_movement_up_at]
  by_cases ho : o = 0
  · rw [if_pos ho]
    have hl : l ≠ 0 := by
      intro hcontra
      exact hc (by rw [hcontra, ho] : Position.At l o = .At 0 0)
    rw [if_pos hl, do_movement_down_at]
    rw [if_pos (by omega : (hht lnw w lines (l - 1).toNat : Int) ≤
      (hht lnw w lines (l - 1).toNat : Int) - 1 + 1)]
    rw [if_neg (by omega : ¬((lines.length : Int) - 1 ≤ l - 1))]
    rw [ho]
    congr 1
    omega
  · rw [if_neg ho, do_movement_down_at]
    by_cases hlt : (hht lnw w lines l.toNat : Int) ≤ o - 1 + 1
    · rw [if_pos hlt]
      have hlast : (lines.length : Int) - 1 ≤ l := by
        by_contra hcontra
        have := h3 (by omega)
        omega
      rw [if_pos hlast]
      have hoA : o + 1 ≤ (areaH : Int) := by
        rcases max_choice ((hht lnw w lines l.toNat : Int)) ((areaH : Int)) with hmx | hmx <;>
          rw [hmx] at h4 <;> omega
      have hmin : min ((areaH : Int) - 1) (o - 1 + 1) = o := by
        have : o - 1 + 1 = o := by omega
        rw [this]
        exact min_eq_right (by omega)
      rw [hmin]
    · rw [if_neg hlt]
      congr 1
      omega

/-- An unclamped `ScrollDown` from a valid `At` position is undone by one
`ScrollUp`. -/
lemma up_down_at (lnw w areaH : Nat) (lines : List String) (l o : Int)
    (hv : validAt lnw w areaH lines (.At l o))
    (hc : ¬downClamped lnw w areaH lines (.At l o)) :
    upStep lnw w areaH lines (downStep lnw w areaH lines (.At l o)) = .At l o := by
  obtain ⟨h0, h1, h2, h3, h4⟩ := hv
  unfold upStep downStep
  rw [do_movement_down_at]
  by_cases hcond : (hht lnw w lines l.toNat : Int) ≤ o + 1
  · rw [if_pos hcond]
    by_cases hl : (lines.length : Int) - 1 ≤ l
    · rw [if_pos hl]
      have hnotcl : ¬((areaH : Int) - 1 < o + 1) := fun hcl =>
        hc ⟨hcond, hl, hcl⟩
      have hmin : min ((areaH : Int) - 1) (o + 1) = o + 1 :=
        min_eq_right (by omega)
      rw [hmin, do_movement_up_at]
      rw [if_neg (by omega : ¬(o + 1 = 0))]
      congr 1
      omega
    · rw [if_neg hl, do_movement_up_at]
      rw [if_pos (rfl : (0 : Int) = 0)]
      rw [if_pos (by omega : l + 1 ≠ 0)]
      have hstep : l + 1 - 1 = l := by omega
      rw [hstep]
      have ho : o + 1 = (hht lnw w lines l.toNat : Int) := by
        have := h3 (by omega)
        omega
      congr 1
      omega
  · rw [if_neg hcond, do_movement_up_at]
    rw [if_neg (by omega : ¬(o + 1 = 0))]
    congr 1
    omega

/-- Scroll steps keep `At` positions `At`. -/
lemma isAt_up (lnw w areaH : Nat) (lines : List String) (l o : Int) :
    ∃ l' o', upStep lnw w areaH lines (.At l o) = .At l' o' := by
  unfold upStep
  rw [do_movement_up_at]
  by_cases ho : o = 0
  · rw [if_pos ho]
    by_cases hl : l ≠ 0
    · rw [if_pos hl]; exact ⟨_, _, rfl⟩
    · rw [if_neg hl]; exact ⟨_, _, rfl⟩
  · rw [if_neg ho]; exact ⟨_, _, rfl⟩

lemma isAt_down (lnw w areaH : Nat) (lines : List String) (l o : Int) :
    ∃ l' o', downStep lnw w areaH lines (.At l o) = .At l' o' := by
  unfold downStep
  rw [do_movement_down_at]
  by_cases hcond : (hht lnw w lines l.toNat : Int) ≤ o + 1
  · rw [if_pos hcond]
    by_cases hl : (lines.length : Int) - 1 ≤ l
    · rw [if_pos hl]; exact ⟨_, _, rfl⟩
    · rw [if_neg hl]; exact ⟨_, _, rfl⟩
  · rw [if_neg hcond]; exact ⟨_, _, rfl⟩

lemma stepIter_up_isAt (lnw w areaH : Nat) (lines : List String) :
    ∀ (n : Nat) (l o : Int),
      ∃ l' o', stepIter (upStep lnw w areaH lines) n (.At l o) = .At l' o' := by
  intro n
  induction n with
  | zero => intro l o; exact ⟨l, o, rfl⟩
  | succ m ihm =>
    intro l o
    obtain ⟨l', o', hq⟩ := ihm l o
    rw [stepIter_succ_outer, hq]
    exact isAt_up lnw w areaH lines l' o'

lemma stepIter_down_isAt (lnw w areaH : Nat) (lines : List String) :
    ∀ (n : Nat) (l o : Int),
      ∃ l' o', stepIter (downStep lnw w areaH lines) n (.At l o) = .At l' o' := by
  intro n
  induction n with
  | zero => intro l o; exact ⟨l, o, rfl⟩
  | succ m ihm =>
    intro l o
    obtain ⟨l', o', hq⟩ := ihm l o
    rw [stepIter_succ_outer, hq]
    exact isAt_down lnw w areaH lines l' o'

lemma stepIter_up_valid (lnw w areaH : Nat) (lines : List String)
    (hne : lines ≠ []) (hA : 1 ≤ areaH) :
    ∀ (n : Nat) (p : Position), validAt lnw w areaH lines p →
      validAt lnw w areaH lines (stepIter (upStep lnw w areaH lines) n p) := by
  intro n
  induction n with
  | zero => intro p hp; exact hp
  | succ m ihm =>
    intro p hp
    rw [stepIter_succ_outer]
    exact validAt_step lnw w areaH lines hne hA .ScrollUp _ (ihm p hp)

lemma stepIter_down_valid (lnw w areaH : Nat) (lines : List String)
    (hne : lines ≠ []) (hA : 1 ≤ areaH) :
    ∀ (n : Nat) (p : Position), validAt lnw w areaH lines p →
      validAt lnw w areaH lines (stepIter (downStep lnw w areaH lines) n p) := by
  intro n
  induction n with
  | zero => intro p hp; exact hp
  | succ m ihm =>
    intro p hp
    rw [stepIter_succ_outer]
    exact validAt_step lnw w areaH lines hne hA .ScrollDown _ (ihm p hp)

lemma downs_of_ups (lnw w areaH : Nat) (lines : List String)
    (hne : lines ≠ []) (hA : 1 ≤ areaH) :
    ∀ (n : Nat) (l o : Int), validAt lnw w areaH lines (.At l o) →
      (∀ k, k < n → ¬upClamped (stepIter (upStep lnw w areaH lines) k (.At l o))) →
      stepIter (downStep lnw w areaH lines) n
        (stepIter (upStep lnw w areaH lines) n (.At l o)) = .At l o := by
  intro n
  induction n with
  | zero => intro l o _ _; rfl
  | succ n ih =>
    intro l o hv hcl
    obtain ⟨l', o', hq⟩ := stepIter_up_isAt lnw w areaH lines n l o
    have hvq := stepIter_up_valid lnw w areaH lines hne hA n (.At l o) hv
    rw [stepIter_succ_outer (upStep lnw w areaH lines) n, hq]
    have hinv := down_up_at lnw w areaH lines l' o' (hq ▸ hvq)
      (hq ▸ hcl n (by omega))
    show stepIter (downStep lnw w areaH lines) n
      (downStep lnw w areaH lines (upStep lnw w areaH lines (.At l' o'))) = .At l o
    rw [hinv, ← hq]
    exact ih l o hv (fun k hk => hcl k (by omega))

lemma ups_of_downs (lnw w areaH : Nat) (lines : List String)
    (hne : lines ≠ []) (hA : 1 ≤ areaH) :
    ∀ (n : Nat) (l o : Int), validAt lnw w areaH lines (.At l o) →
      (∀ k, k < n →
        ¬downClamped lnw w areaH lines
          (stepIter (downStep lnw w areaH lines) k (.At l o))) →
      stepIter (upStep lnw w areaH lines) n
        (stepIter (downStep lnw w areaH lines) n (.At l o)) = .At l o := by
  intro n
  induction n with
  | zero => intro l o _ _; rfl
  | succ n ih =>
    intro l o hv hcl
    obtain ⟨l', o', hq⟩ := stepIter_down_isAt lnw w areaH lines n l o
    have hvq := stepIter_down_valid lnw w areaH lines hne hA n (.At l o) hv
    rw [stepIter_succ_outer (downStep lnw w areaH lines) n, hq]
    have hinv := up_down_at lnw w areaH lines l' o' (hq ▸ hvq)
      (hq ▸ hcl n (by omega))
    show stepIter (upStep lnw w areaH lines) n
      (upStep lnw w areaH lines (downStep lnw w areaH lines (.At l' o'))) = .At l o
    rw [hinv, ← hq]
    exact ih l o hv (fun k hk => hcl k (by omega))

/-- C6: over a fixed nonempty buffer and a viewport of height ≥ 1,
`n` `ScrollUp`s followed by `n` `ScrollDown`s (and vice versa) return a
valid `At` start position to itself, provided no intermediate position
was clamped — i.e. no `ScrollUp` was applied at the first line's first
row (`At 0 0`) and no `ScrollDown` was truncated by the
`text_area.height - 1` clamp at the last line's last row. -/
theorem c6_scroll_invertibility (lnw w areaH : Nat) (lines : List String)
    (hne : lines ≠ []) (hA : 1 ≤ areaH) (l o : Int) (n : Nat)
    (hv : validAt lnw w areaH lines (.At l o)) :
    ((∀ k, k < n →
        ¬upClamped (stepIter (upStep lnw w areaH lines) k (.At l o))) →
      stepIter (downStep lnw w areaH lines) n
        (stepIter (upStep lnw w areaH lines) n (.At l o)) = .At l o) ∧
    ((∀ k, k < n →
        ¬downClamped lnw w areaH lines
          (stepIter (downStep lnw w areaH lines) k (.At l o))) →
      stepIter (upStep lnw w areaH lines) n
        (stepIter (downStep lnw w areaH lines) n (.At l o)) = .At l o) :=
  ⟨fun hcl => downs_of_ups lnw w areaH lines hne hA n l o hv hcl,
   fun hcl => ups_of_downs lnw w areaH lines hne hA n l o hv hcl⟩

theorem c6_scroll_invertibility_witness :
    ((["abcdefgh"] : List String) ≠ [] ∧ 1 ≤ 3 ∧
      validAt 4 4 3 ["abcdefgh"] (.At 0 1)) ∧
    (stepIter (downStep 4 4 3 ["abcdefgh"]) 1
        (stepIter (upStep 4 4 3 ["abcdefgh"]) 1 (.At 0 1)) = .At 0 1 ∧
     stepIter (upStep 4 4 3 ["abcdefgh"]) 1
        (stepIter (downStep 4 4 3 ["abcdefgh"]) 1 (.At 0 1)) = .At 0 1) := by
  have hv : validAt 4 4 3 ["abcdefgh"] (.At 0 1) :=
    ⟨by decide, by decide, by decide, fun _ => by decide, by decide⟩
  refine ⟨⟨by decide, by decide, hv⟩, ?_, ?_⟩
  · exact (c6_scroll_invertibility 4 4 3 ["abcdefgh"] (by decide) (by decide)
      0 1 1 hv).1 (fun k hk => by
        have hk0 : k = 0 := by omega
        subst hk0
        decide)
  · exact (c6_scroll_invertibility 4 4 3 ["abcdefgh"] (by decide) (by decide)
      0 1 1 hv).2 (fun k hk => by
        have hk0 : k = 0 := by omega
        subst hk0
        decide)

/-- C5: the wrapped height used by the scroll and follow computations
equals `ceil((len + prefix_width) / viewport_width)` with
`prefix_width = 4` (written here as `(len + 4 + (w - 1)) / w`), is at
least 1 for every line including the empty one, and doubling the
viewport width yields a height between half and all of the original. -/
theorem c5_wrapped_height (w len : Nat) (hw : 1 ≤ w) :
    wrappedHeight 4 w len = (len + 4 + (w - 1)) / w ∧
    1 ≤ wrappedHeight 4 w len ∧
    wrappedHeight 4 (2 * w) len ≤ wrappedHeight 4 w len ∧
    wrappedHeight 4 w len ≤ 2 * wrappedHeight 4 (2 * w) len := by
  unfold wrappedHeight
  have h0 : len + 4 - 1 = len + 3 := by omega
  rw [h0]
  refine ⟨?_, Nat.succ_le_succ (Nat.zero_le _), ?_, ?_⟩
  · have h1 : len + 4 + (w - 1) = (len + 3) + w := by omega
    rw [h1, Nat.add_div_right _ hw]
  · exact Nat.add_le_add_right
      (Nat.div_le_div_left (by omega : w ≤ 2 * w) hw) 1
  · have h2 : (len + 3) / (2 * w) = (len + 3) / w / 2 := by
      rw [Nat.div_div_eq_div_mul, Nat.mul_comm]
    rw [h2]
    omega

theorem c5_wrapped_height_witness : 1 ≤ 4 ∧
    (wrappedHeight 4 4 8 = (8 + 4 + (4 - 1)) / 4 ∧
     1 ≤ wrappedHeight 4 4 8 ∧
     wrappedHeight 4 (2 * 4) 8 ≤ wrappedHeight 4 4 8 ∧
     wrappedHeight 4 4 8 ≤ 2 * wrappedHeight 4 (2 * 4) 8) :=
  ⟨by decide, c5_wrapped_height 4 8 (by decide)⟩

/-- C3 counterexample: with buffer `["a", "b"]`, viewport width 10 and
height 1, the tail position resolved from `Follow` is `At 1 0`, and a
`ScrollUp` applied to `Follow` yields exactly that tail position
`At 1 0` — not `At 0 0`, which is what one further `ScrollUp` decrement
(as the claim describes) would produce. -/
theorem c3_counterexample :
    do_movement .ScrollUp 4 10 1 ["a", "b"] .Follow = .At 1 0 ∧
    do_movement .ScrollUp 4 10 1 ["a", "b"] (.At 1 0) = .At 0 0 ∧
    Position.At 1 0 ≠ Position.At 0 0 := by
  refine ⟨by decide, by decide, by decide⟩

/-- C3 (amended): a `ScrollUp` (or `ScrollDown`) applied to the `Follow`
state resolves `Follow` to the current tail `At` position computed by
`follow_get_start_pos`, with no scroll decrement applied on top of it:
the result is the tail position itself, not one wrapped row before it. -/
theorem c3_follow_resolution (lnw w areaH : Nat) (lines : List String) :
    do_movement .ScrollUp lnw w areaH lines .Follow =
      .At (follow_get_start_pos lnw w areaH lines).1
        (follow_get_start_pos lnw w areaH lines).2 ∧
    do_movement .ScrollDown lnw w areaH lines .Follow =
      .At (follow_get_start_pos lnw w areaH lines).1
        (follow_get_start_pos lnw w areaH lines).2 :=
  ⟨rfl, rfl⟩

lemma joinNL_cons_cons (a b : String) (t : List String) :
    joinNL (a :: b :: t) = a ++ "\n" ++ joinNL (b :: t) := rfl

lemma joinNL_append_empty :
    ∀ (xs : List String), xs ≠ [] → joinNL (xs ++ [""]) = joinNL xs ++ "\n" := by
  intro xs
  induction xs with
  | nil => intro h; exact absurd rfl h
  | cons a rest ih =>
    intro _
    cases rest with
    | nil => exact String.append_empty _
    | cons b rest2 =>
      show joinNL (a :: ((b :: rest2) ++ [""])) = joinNL (a :: b :: rest2) ++ "\n"
      rw [List.cons_append, joinNL_cons_cons, ← List.cons_append,
        ih (by simp), joinNL_cons_cons]
      simp [String.append_assoc]

lemma pushLast_ne_nil (t : String) :
    ∀ (xs : List String), xs ≠ [] → pushLast t xs ≠ [] := by
  intro xs hxs
  cases xs with
  | nil => exact absurd rfl hxs
  | cons a rest =>
    cases rest with
    | nil => simp [pushLast]
    | cons b rest2 => simp [pushLast]

lemma joinNL_pushLast (t : String) :
    ∀ (xs : List String), xs ≠ [] → joinNL (pushLast t xs) = joinNL xs ++ t := by
  intro xs
  induction xs with
  | nil => intro h; exact absurd rfl h
  | cons a rest ih =>
    intro _
    cases rest with
    | nil => rfl
    | cons b rest2 =>
      have h1 : pushLast t (a :: b :: rest2) = a :: pushLast t (b :: rest2) := rfl
      rw [h1]
      obtain ⟨c, cs, hc⟩ : ∃ c cs, pushLast t (b :: rest2) = c :: cs := by
        cases rest2 with
        | nil => exact ⟨b ++ t, [], rfl⟩
        | cons d ds => exact ⟨b, pushLast t (d :: ds), rfl⟩
      rw [hc, joinNL_cons_cons, ← hc, ih (by simp), joinNL_cons_cons]
      simp [String.append_assoc]

lemma writeToFile_ok (s : AppState) (t : String)
    (hf : s.hasFile = true) (hw : s.writeOk = true) :
    writeToFile s t =
      (Except.ok (), { s with fileWritten := s.fileWritten ++ t }) := by
  unfold writeToFile
  rw [if_pos hf, if_pos hw]

lemma writeToFile_err (s : AppState) (t : String)
    (hf : s.hasFile = true) (hw : s.writeOk = false) :
    writeToFile s t = (Except.error (), s) := by
  unfold writeToFile
  rw [if_pos hf, if_neg (by simp [hw])]

lemma parse_byte_ok (s : AppState) (b : Nat) (hs : goodState s) :
    ∃ s2 : AppState, parse_byte s b = (Except.ok (), s2) ∧ goodState s2 ∧
      s2.fileWritten = s.fileWritten ++ transform b := by
  obtain ⟨hf, hw, hne, hfw⟩ := hs
  by_cases hb : b = 10
  · subst hb
    unfold parse_byte
    rw [if_pos rfl, writeToFile_ok s "\n" hf hw]
    refine ⟨_, rfl, ⟨hf, hw, by simp, ?_⟩, ?_⟩
    · show s.fileWritten ++ "\n" = joinNL (s.lines ++ [""])
      rw [joinNL_append_empty s.lines hne, hfw]
    · rfl
  · unfold parse_byte
    rw [if_neg hb]
    show ∃ s2 : AppState,
      writeToFile (mutated s b) (byteStr b) = (Except.ok (), s2) ∧ goodState s2 ∧
        s2.fileWritten = s.fileWritten ++ transform b
    rw [writeToFile_ok (mutated s b) (byteStr b) hf hw]
    refine ⟨_, rfl, ⟨hf, hw, pushLast_ne_nil _ _ hne, ?_⟩, ?_⟩
    · show s.fileWritten ++ byteStr b = joinNL (pushLast (byteStr b) s.lines)
      rw [joinNL_pushLast _ s.lines hne, hfw]
    · show s.fileWritten ++ byteStr b = s.fileWritten ++ transform b
      unfold transform
      rw [if_neg hb]

lemma feed_good :
    ∀ (bs : List Nat) (s : AppState), goodState s →
      ∃ s' : AppState, feed s bs = Except.ok s' ∧ goodState s' ∧
        s'.fileWritten = s.fileWritten ++ concatAll (bs.map transform) := by
  intro bs
  induction bs with
  | nil =>
    intro s hs
    exact ⟨s, rfl, hs, (String.append_empty _).symm⟩
  | cons b rest ih =>
    intro s hs
    obtain ⟨s2, heq, hs2, hfw⟩ := parse_byte_ok s b hs
    obtain ⟨s', heq', hs', hfw'⟩ := ih s2 hs2
    refine ⟨s', ?_, hs', ?_⟩
    · show feed s (b :: rest) = Except.ok s'
      unfold feed
      rw [heq]
      exact heq'
    · rw [hfw', hfw]
      show s.fileWritten ++ transform b ++ concatAll (rest.map transform) =
        s.fileWritten ++ concatAll ((b :: rest).map transform)
      rw [String.append_assoc]
      rfl

/-- C1: feeding any byte sequence to `parse_byte` from the initial state
(one empty buffer line, empty `cur_line`, an open healthy output file)
writes to the file exactly the input bytes with newline bytes kept and
every byte that is not a valid single-byte UTF-8 unit (≥ 0x80) replaced
by `0x` plus its uppercase hex; the Line Buffer entries joined with
newlines equal that same transcript. In particular the bytes of `A`,
0xFF, `B`, 0x0A yield file content `"A0xFFB\n"` and buffer
`["A0xFFB", ""]`. -/
theorem c1_parser_transcript :
    (∀ (bs : List Nat), ∃ s' : AppState,
        feed (initApp true none) bs = Except.ok s' ∧
        s'.fileWritten = concatAll (bs.map transform) ∧
        joinNL s'.lines = concatAll (bs.map transform)) ∧
    (∃ s' : AppState,
        feed (initApp true none) [65, 255, 66, 10] = Except.ok s' ∧
        s'.fileWritten = "A0xFFB\n" ∧ s'.lines = ["A0xFFB", ""]) := by
  have hinit : goodState (initApp true none) := ⟨rfl, rfl, by simp [initApp], rfl⟩
  constructor
  · intro bs
    obtain ⟨s', heq, hs', hfw⟩ := feed_good bs (initApp true none) hinit
    refine ⟨s', heq, ?_, ?_⟩
    · rw [hfw]
      rfl
    · rw [← hs'.2.2.2, hfw]
      rfl
  · exact ⟨c1FinalState, rfl, rfl, rfl⟩

/-- C9 counterexample: with a failing output file, feeding the byte `A`
returns the write error, yet the Line Buffer has already been mutated
(the file saw nothing): the state "buffer mutated but file write failed"
that the claim calls unreachable is reached. -/
theorem c9_counterexample :
    (parse_byte failingApp 65).1 = Except.error () ∧
    (parse_byte failingApp 65).2.lines = ["A"] ∧
    (parse_byte failingApp 65).2.curLine = "A" ∧
    (parse_byte failingApp 65).2.fileWritten = "" :=
  ⟨rfl, rfl, rfl, rfl⟩

/-- C9 (amended): a write failure is always surfaced to the caller,
never swallowed; but the two sides are only atomic on the newline path,
where the write precedes the buffer mutation so a failure leaves the
state untouched. On every other byte the Line Buffer and `cur_line` are
mutated `before` the file write, so a failed write returns with the
buffer already extended — the claimed two-sided atomicity does not hold
there. -/
theorem c9_write_failure_surfaced (s : AppState) (b : Nat)
    (hf : s.hasFile = true) (hw : s.writeOk = false) :
    (parse_byte s b).1 = Except.error () ∧
    (b = 10 → (parse_byte s b).2 = s) ∧
    (b ≠ 10 → (parse_byte s b).2 = mutated s b) := by
  by_cases hb : b = 10
  · subst hb
    have hpb : parse_byte s 10 = (Except.error (), s) := by
      unfold parse_byte
      rw [if_pos rfl, writeToFile_err s "\n" hf hw]
    rw [hpb]
    exact ⟨rfl, fun _ => rfl, fun hcontra => absurd rfl hcontra⟩
  · have hpb : parse_byte s b = (Except.error (), mutated s b) := by
      unfold parse_byte
      rw [if_neg hb]
      show writeToFile (mutated s b) (byteStr b) = (Except.error (), mutated s b)
      rw [writeToFile_err (mutated s b) (byteStr b) hf hw]
    rw [hpb]
    exact ⟨rfl, fun hcontra => absurd hcontra hb, fun _ => rfl⟩

theorem c9_write_failure_surfaced_witness :
    (failingApp.hasFile = true ∧ failingApp.writeOk = false) ∧
    ((parse_byte failingApp 65).1 = Except.error () ∧
     (65 = 10 → (parse_byte failingApp 65).2 = failingApp) ∧
     (65 ≠ 10 → (parse_byte failingApp 65).2 = mutated failingApp 65)) :=
  ⟨⟨rfl, rfl⟩, c9_write_failure_surfaced failingApp 65 rfl rfl⟩

/-- C8: with graphing enabled (window length 60, the default) and the
signed-float pattern from `main`, feeding the bytes of
`"3.14\n-2\nfoo\n"` to `parse_byte` completes without error and yields
the series `[(0, 3.14), (1, -2)]`: on each completed line the first
pattern match is parsed and appended with its index as x-coordinate,
and the line `"foo"` (no match) appends no sample and raises no error. -/
theorem c8_graph_extraction :
    ((feed (initApp false (some (initGrapher 60)))
        (("3.14\n-2\nfoo\n").data.map Char.toNat)).toOption.map
      (fun s => s.grapher.map Grapher.data)) =
    some (some [((0 : ℚ), (3.14 : ℚ)), ((1 : ℚ), (-2 : ℚ))]) := by
  have h314 : (3.14 : ℚ) = 157 / 50 := by norm_num
  rw [h314]
  decide

lemma idxList_succ (n : Nat) : idxList (n + 1) = idxList n ++ [(n : ℚ)] := by
  unfold idxList
  rw [List.range_succ, List.map_append]
  rfl

lemma grapherInv_init (wl : Nat) : grapherInv wl (initGrapher wl) := by
  refine ⟨rfl, 0, by simp [initGrapher], by simp [initGrapher], by
    simp [initGrapher, idxList], ?_, Or.inl rfl⟩
  show ((([] : List (ℚ × ℚ)).length : ℚ)) + (wl : ℚ) / 10 ≤ (wl : ℚ) + (0 : ℚ) + 1
  have hwl : (0 : ℚ) ≤ (wl : ℚ) := by positivity
  simp only [List.length_nil, Nat.cast_zero]
  linarith

lemma ingest_data (g : Grapher) (v : ℚ) :
    (ingest g v).data = g.data ++ [((g.data.length : ℚ), v)] := by
  unfold ingest
  by_cases hc : (g.data.length : ℚ) + (g.window_len : ℚ) / 10 > g.window1
  · rw [if_pos hc]
  · rw [if_neg hc]

lemma ingest_window_slide (g : Grapher) (v : ℚ)
    (hc : (g.data.length : ℚ) + (g.window_len : ℚ) / 10 > g.window1) :
    (ingest g v).window0 = g.window0 + 1 ∧
    (ingest g v).window1 = g.window1 + 1 := by
  unfold ingest
  rw [if_pos hc]
  exact ⟨rfl, rfl⟩

lemma ingest_window_stay (g : Grapher) (v : ℚ)
    (hc : ¬((g.data.length : ℚ) + (g.window_len : ℚ) / 10 > g.window1)) :
    (ingest g v).window0 = g.window0 ∧ (ingest g v).window1 = g.window1 := by
  unfold ingest
  rw [if_neg hc]
  exact ⟨rfl, rfl⟩

lemma ingest_window_len (g : Grapher) (v : ℚ) :
    (ingest g v).window_len = g.window_len := by
  unfold ingest
  by_cases hc : (g.data.length : ℚ) + (g.window_len : ℚ) / 10 > g.window1
  · rw [if_pos hc]
  · rw [if_neg hc]

lemma map_fst_snoc (g : Grapher) (v : ℚ)
    (h : g.data.map Prod.fst = idxList g.data.length) :
    (g.data ++ [((g.data.length : ℚ), v)]).map Prod.fst =
      idxList (g.data.length + 1) := by
  rw [List.map_append, h, idxList_succ]
  rfl

lemma grapherInv_step (wl : Nat) (g : Grapher) (v : ℚ)
    (h : grapherInv wl g) : grapherInv wl (ingest g v) := by
  obtain ⟨hlen, k, h0, h1, hmap, hb, hk⟩ := h
  by_cases hc : (g.data.length : ℚ) + (g.window_len : ℚ) / 10 > g.window1
  · obtain ⟨hs0, hs1⟩ := ingest_window_slide g v hc
    rw [hlen, h1] at hc
    refine ⟨by rw [ingest_window_len, hlen], k + 1, ?_, ?_, ?_, ?_, ?_⟩
    · rw [hs0, h0]
      push_cast
      ring
    · rw [hs1, h1]
      push_cast
      ring
    · rw [ingest_data]
      have := map_fst_snoc g v hmap
      rw [this]
      rw [List.length_append, List.length_singleton]
    · rw [ingest_data, List.length_append, List.length_singleton]
      push_cast
      linarith
    · refine Or.inr ?_
      rw [ingest_data, List.length_append, List.length_singleton]
      push_cast
      linarith
  · obtain ⟨hs0, hs1⟩ := ingest_window_stay g v hc
    rw [hlen, h1] at hc
    refine ⟨by rw [ingest_window_len, hlen], k, by rw [hs0, h0], by rw [hs1, h1],
      ?_, ?_, ?_⟩
    · rw [ingest_data]
      have := map_fst_snoc g v hmap
      rw [this]
      rw [List.length_append, List.length_singleton]
    · rw [ingest_data, List.length_append, List.length_singleton]
      push_cast
      linarith
    · rcases hk with hk | hk
      · exact Or.inl hk
      · refine Or.inr ?_
        rw [ingest_data, List.length_append, List.length_singleton]
        push_cast
        linarith

lemma grapherInv_fold (wl : Nat) (vs : List ℚ) :
    grapherInv wl (vs.foldl ingest (initGrapher wl)) := by
  suffices h : ∀ (vs : List ℚ) (g : Grapher), grapherInv wl g →
      grapherInv wl (vs.foldl ingest g) by
    exact h vs (initGrapher wl) (grapherInv_init wl)
  intro vs
  induction vs with
  | nil => intro g hg; exact hg
  | cons v rest ih =>
    intro g hg
    exact ih (ingest g v) (grapherInv_step wl g v hg)

lemma countP_range_le (k : Nat) :
    ∀ n : Nat, ((List.range n).filter (fun i => decide (k ≤ i))).length = n - k := by
  intro n
  induction n with
  | zero => simp
  | succ m ih =>
    rw [List.range_succ, List.filter_append, List.length_append, ih]
    by_cases hk : k ≤ m
    · simp only [List.filter_singleton, decide_eq_true hk, cond_true,
        List.length_singleton]
      omega
    · simp only [List.filter_singleton, decide_eq_false hk, cond_false,
        List.length_nil]
      omega

lemma length_filter_map_eq {α β : Type} (f : α → β) (q : β → Bool) :
    ∀ l : List α,
      (List.filter q (l.map f)).length = (List.filter (fun a => q (f a)) l).length := by
  intro l
  induction l with
  | nil => rfl
  | cons a t ih =>
    by_cases hq : q (f a)
    · simp [List.filter_cons, hq, ih]
    · simp [List.filter_cons, hq, ih]

lemma countInside_eq (wl : Nat) (g : Grapher) (h : grapherInv wl g)
    (hwl : 1 ≤ wl) :
    ∃ k : Nat, g.window0 = (k : ℚ) ∧ k ≤ g.data.length ∧
      countInside g = g.data.length - k := by
  obtain ⟨hlen, k, h0, h1, hmap, hb, hk⟩ := h
  have hq10 : (0 : ℚ) ≤ (wl : ℚ) / 10 := by positivity
  have hklen : k ≤ g.data.length := by
    rcases hk with hk | hk
    · omega
    · have hwlq : (wl : ℚ) / 10 ≤ (wl : ℚ) := by
        have : (0 : ℚ) ≤ (wl : ℚ) := by positivity
        linarith
      have : (k : ℚ) < (g.data.length : ℚ) := by linarith
      exact_mod_cast le_of_lt this
  refine ⟨k, h0, hklen, ?_⟩
  unfold countInside
  have hfilter : (g.data.filter
      (fun p => decide (g.window0 ≤ p.1 ∧ p.1 ≤ g.window1))).length =
      ((g.data.map Prod.fst).filter
        (fun x => decide (g.window0 ≤ x ∧ x ≤ g.window1))).length := by
    rw [length_filter_map_eq]
  rw [hfilter, hmap]
  unfold idxList
  rw [length_filter_map_eq]
  have hcong : ∀ i ∈ List.range g.data.length,
      (fun i : Nat =>
        (fun x => decide (g.window0 ≤ x ∧ x ≤ g.window1)) ((fun i : Nat => (i : ℚ)) i)) i =
        (fun i : Nat => decide (k ≤ i)) i := by
    intro i hi
    rw [List.mem_range] at hi
    simp only [h0, h1, decide_eq_decide]
    constructor
    · intro hcomb
      exact_mod_cast hcomb.1
    · intro hki
      refine ⟨by exact_mod_cast hki, ?_⟩
      have hi1 : (i : ℚ) ≤ (g.data.length : ℚ) - 1 := by
        have : (i : Nat) + 1 ≤ g.data.length := hi
        have := (Nat.cast_le (α := ℚ)).2 this
        push_cast at this
        linarith
      linarith
  rw [List.filter_congr hcong]
  exact countP_range_le k g.data.length

/-- C7 counterexample: with `window_len = 20`, after ingesting 20
samples the window has slid to `[1, 21]` while the samples have
x-coordinates 0..19, so only 19 of the 20 existing samples lie inside
the window — fewer than `window_len`, contradicting the claim's final
clause. -/
theorem c7_counterexample :
    ((List.replicate 20 (0 : ℚ)).foldl ingest (initGrapher 20)).data.length = 20 ∧
    countInside ((List.replicate 20 (0 : ℚ)).foldl ingest (initGrapher 20)) = 19 ∧
    ¬(20 ≤ 19) := by
  refine ⟨by decide, by decide, by decide⟩

/-- C7 (amended): starting from window `[0, window_len]`, after any
sequence of ingested samples: the window width is always exactly
`window_len`; one further ingestion slides both bounds by exactly one
when the series length plus `window_len/10` exceeds the upper bound and
leaves them unchanged otherwise (so the window never moves by more than
one unit per sample); and once `window_len` samples exist, the number of
samples inside the window always exceeds `window_len - window_len/10`
(but may be less than `window_len`: the `window_len/10` margin makes the
window slide before it is full). -/
theorem c7_window_sliding (wl : Nat) (vs : List ℚ) (hwl : 1 ≤ wl) :
    (vs.foldl ingest (initGrapher wl)).window1 -
      (vs.foldl ingest (initGrapher wl)).window0 = (wl : ℚ) ∧
    (∀ v : ℚ,
      ((((vs.foldl ingest (initGrapher wl)).data.length : ℚ) + (wl : ℚ) / 10 >
          (vs.foldl ingest (initGrapher wl)).window1 →
        (ingest (vs.foldl ingest (initGrapher wl)) v).window0 =
            (vs.foldl ingest (initGrapher wl)).window0 + 1 ∧
          (ingest (vs.foldl ingest (initGrapher wl)) v).window1 =
            (vs.foldl ingest (initGrapher wl)).window1 + 1) ∧
       (((vs.foldl ingest (initGrapher wl)).data.length : ℚ) + (wl : ℚ) / 10 ≤
          (vs.foldl ingest (initGrapher wl)).window1 →
        (ingest (vs.foldl ingest (initGrapher wl)) v).window0 =
            (vs.foldl ingest (initGrapher wl)).window0 ∧
          (ingest (vs.foldl ingest (initGrapher wl)) v).window1 =
            (vs.foldl ingest (initGrapher wl)).window1))) ∧
    (wl ≤ (vs.foldl ingest (initGrapher wl)).data.length →
      (wl : ℚ) - (wl : ℚ) / 10 <
        (countInside (vs.foldl ingest (initGrapher wl)) : ℚ)) := by
  obtain ⟨hlen, k, h0, h1, hmap, hb, hk⟩ := grapherInv_fold wl vs
  refine ⟨by rw [h0, h1]; ring, ?_, ?_⟩
  · intro v
    constructor
    · intro hcond
      exact ingest_window_slide _ v (by rw [hlen]; exact hcond)
    · intro hcond
      exact ingest_window_stay _ v (by rw [hlen]; exact not_lt.2 hcond)
  · intro hfull
    obtain ⟨k', hk0', hk'len, hcount⟩ :=
      countInside_eq wl _ ⟨hlen, k, h0, h1, hmap, hb, hk⟩ hwl
    have hkk : k' = k := by
      have : (k' : ℚ) = (k : ℚ) := by rw [← hk0', h0]
      exact_mod_cast this
    subst hkk
    rw [hcount, Nat.cast_sub hk'len]
    have hwl1 : (1 : ℚ) ≤ (wl : ℚ) := by exact_mod_cast hwl
    have hfullq : (wl : ℚ) ≤
        ((vs.foldl ingest (initGrapher wl)).data.length : ℚ) := by
      exact_mod_cast hfull
    rcases hk with hk0 | hklt
    · subst hk0
      simp only [Nat.cast_zero]
      linarith
    · linarith


theorem c7_window_sliding_witness :
    1 ≤ 10 ∧
    ((([(1 : ℚ)].foldl ingest (initGrapher 10)).window1 -
        ([(1 : ℚ)].foldl ingest (initGrapher 10)).window0 = ((10 : Nat) : ℚ) ∧
     (∀ v : ℚ,
       (((([(1 : ℚ)].foldl ingest (initGrapher 10)).data.length : ℚ) +
            ((10 : Nat) : ℚ) / 10 >
           ([(1 : ℚ)].foldl ingest (initGrapher 10)).window1 →
         (ingest ([(1 : ℚ)].foldl ingest (initGrapher 10)) v).window0 =
             ([(1 : ℚ)].foldl ingest (initGrapher 10)).window0 + 1 ∧
           (ingest ([(1 : ℚ)].foldl ingest (initGrapher 10)) v).window1 =
             ([(1 : ℚ)].foldl ingest (initGrapher 10)).window1 + 1) ∧
        ((([(1 : ℚ)].foldl ingest (initGrapher 10)).data.length : ℚ) +
            ((10 : Nat) : ℚ) / 10 ≤
           ([(1 : ℚ)].foldl ingest (initGrapher 10)).window1 →
         (ingest ([(1 : ℚ)].foldl ingest (initGrapher 10)) v).window0 =
             ([(1 : ℚ)].foldl ingest (initGrapher 10)).window0 ∧
           (ingest ([(1 : ℚ)].foldl ingest (initGrapher 10)) v).window1 =
             ([(1 : ℚ)].foldl ingest (initGrapher 10)).window1))) ∧
     (10 ≤ ([(1 : ℚ)].foldl ingest (initGrapher 10)).data.length →
       ((10 : Nat) : ℚ) - ((10 : Nat) : ℚ) / 10 <
         (countInside ([(1 : ℚ)].foldl ingest (initGrapher 10)) : ℚ)))) :=
  ⟨by decide, c7_window_sliding 10 [(1 : ℚ)] (by decide)⟩

end RTerm

